import Mathlib

/-!
Verification of the shadow-generation pipeline of
`realistic-shadow-generator-ts` (single-file React app, `src/App.tsx`).

The numeric core of each pipeline stage is embedded shallowly:

* the Placement Resolver (`tryCompute`) over `ℚ` with JavaScript
  `Math.round` modelled as `fun q => ⌊q + 1/2⌋`;
* the Depth Sampler per-pixel computation (`depthPixel`, `buildDepth`)
  over `ℝ`, with `Math.pow` modelled as `Real.rpow`;
* the Depth Layer Slicer band predicate (`inBand`, `coveredBy`);
* the Mask Extractor per-pixel loop (`buildMask`);
* the Shadow Renderer geometry (`kBase`, `kLayerOf`, `cFallback`, `cLayer`)
  and the depth-aware drawing pass as a trace of drawing operations
  (`depthAwareOps`), including the final screen-space fade.
-/

namespace ShadowGen

/-- JavaScript `Math.round`: round half toward positive infinity. -/
def jround (q : ℚ) : ℤ := ⌊q + 1/2⌋

/-- A placement rectangle `{x, y, w, h}` in background-canvas coordinates. -/
structure Placement where
  x : ℤ
  y : ℤ
  w : ℤ
  h : ℤ
deriving DecidableEq, Repr

/-- Scale factor of `tryCompute`:
`Math.min(1, canvas.width / fg.naturalWidth, canvas.height / fg.naturalHeight)`. -/
def scaleQ (sw sh bw bh : ℕ) : ℚ := min 1 (min ((bw : ℚ) / sw) ((bh : ℚ) / sh))

/-- The Placement Resolver `tryCompute` from the source: subject natural size
`(sw, sh)`, background natural size `(bw, bh)`; scale-to-fit (never upscale),
bottom-anchored, horizontally centered. -/
def tryCompute (sw sh bw bh : ℕ) : Placement :=
  let scale := scaleQ sw sh bw bh
  let w := jround (scale * sw)
  let h := jround (scale * sh)
  let x := jround (((bw : ℚ) - w) / 2)
  let y := jround ((bh : ℚ) - h)
  ⟨x, y, w, h⟩

/-! Basic facts about `jround`. -/

theorem jround_le (q : ℚ) : (jround q : ℚ) ≤ q + 1/2 := Int.floor_le _

theorem lt_jround_add_one (q : ℚ) : q + 1/2 < jround q + 1 := Int.lt_floor_add_one _

theorem jround_mono {p q : ℚ} (h : p ≤ q) : jround p ≤ jround q :=
  Int.floor_le_floor (by linarith)

theorem le_jround {z : ℤ} {q : ℚ} (h : (z : ℚ) ≤ q + 1/2) : z ≤ jround q :=
  Int.le_floor.mpr h

theorem jround_nonneg {q : ℚ} (h : 0 ≤ q) : 0 ≤ jround q :=
  le_jround (by push_cast; linarith)

theorem jround_intCast (z : ℤ) : jround (z : ℚ) = z := by
  unfold jround
  rw [Int.floor_int_add]
  have h : ⌊(1/2 : ℚ)⌋ = 0 := by
    rw [Int.floor_eq_zero_iff]
    constructor <;> norm_num
  omega

theorem jround_natCast (n : ℕ) : jround (n : ℚ) = n := by
  have h := jround_intCast (n : ℤ)
  push_cast at h ⊢
  exact h

/-! Facts about `scaleQ`. -/

theorem scaleQ_pos {sw sh bw bh : ℕ} (hsw : 0 < sw) (hsh : 0 < sh)
    (hbw : 0 < bw) (hbh : 0 < bh) : 0 < scaleQ sw sh bw bh := by
  refine lt_min one_pos (lt_min ?_ ?_) <;>
    exact div_pos (by exact_mod_cast ‹_›) (by exact_mod_cast ‹_›)

theorem scaleQ_le_one (sw sh bw bh : ℕ) : scaleQ sw sh bw bh ≤ 1 := min_le_left _ _

theorem scaleQ_mul_sw_le {sw : ℕ} (sh bw bh : ℕ) (hsw : 0 < sw) :
    scaleQ sw sh bw bh * sw ≤ bw := by
  have h1 : scaleQ sw sh bw bh ≤ (bw : ℚ) / sw :=
    le_trans (min_le_right _ _) (min_le_left _ _)
  have hsw' : (0 : ℚ) < sw := by exact_mod_cast hsw
  calc scaleQ sw sh bw bh * sw ≤ ((bw : ℚ) / sw) * sw :=
        mul_le_mul_of_nonneg_right h1 (le_of_lt hsw')
    _ = bw := div_mul_cancel₀ _ (ne_of_gt hsw')

theorem scaleQ_mul_sh_le (sw : ℕ) {sh : ℕ} (bw bh : ℕ) (hsh : 0 < sh) :
    scaleQ sw sh bw bh * sh ≤ bh := by
  have h1 : scaleQ sw sh bw bh ≤ (bh : ℚ) / sh :=
    le_trans (min_le_right _ _) (min_le_right _ _)
  have hsh' : (0 : ℚ) < sh := by exact_mod_cast hsh
  calc scaleQ sw sh bw bh * sh ≤ ((bh : ℚ) / sh) * sh :=
        mul_le_mul_of_nonneg_right h1 (le_of_lt hsh')
    _ = bh := div_mul_cancel₀ _ (ne_of_gt hsh')

theorem tryCompute_w_le {sw : ℕ} (sh bw bh : ℕ) (hsw : 0 < sw) :
    (tryCompute sw sh bw bh).w ≤ bw := by
  have h := jround_mono (scaleQ_mul_sw_le sh bw bh hsw)
  rwa [jround_natCast bw] at h

theorem tryCompute_h_le (sw : ℕ) {sh : ℕ} (bw bh : ℕ) (hsh : 0 < sh) :
    (tryCompute sw sh bw bh).h ≤ bh := by
  have h := jround_mono (scaleQ_mul_sh_le sw bw bh hsh)
  rwa [jround_natCast bh] at h

theorem tryCompute_w_nonneg {sw sh bw bh : ℕ} (hsw : 0 < sw) (hsh : 0 < sh)
    (hbw : 0 < bw) (hbh : 0 < bh) : 0 ≤ (tryCompute sw sh bw bh).w :=
  jround_nonneg (mul_nonneg (le_of_lt (scaleQ_pos hsw hsh hbw hbh)) (Nat.cast_nonneg sw))

theorem tryCompute_h_nonneg {sw sh bw bh : ℕ} (hsw : 0 < sw) (hsh : 0 < sh)
    (hbw : 0 < bw) (hbh : 0 < bh) : 0 ≤ (tryCompute sw sh bw bh).h :=
  jround_nonneg (mul_nonneg (le_of_lt (scaleQ_pos hsw hsh hbw hbh)) (Nat.cast_nonneg sh))

theorem tryCompute_y_eq (sw sh bw bh : ℕ) :
    (tryCompute sw sh bw bh).y = (bh : ℤ) - (tryCompute sw sh bw bh).h := by
  show jround ((bh : ℚ) - (jround (scaleQ sw sh bw bh * sh) : ℚ)) = _
  have h : ((bh : ℚ) - (jround (scaleQ sw sh bw bh * sh) : ℚ)) =
      (((bh : ℤ) - jround (scaleQ sw sh bw bh * sh) : ℤ) : ℚ) := by push_cast; ring
  rw [h, jround_intCast]
  rfl

theorem jround_abs_le (q : ℚ) : |(jround q : ℚ) - q| ≤ 1/2 := by
  have h1 := jround_le q
  have h2 := lt_jround_add_one q
  rw [abs_le]
  constructor <;> [linarith; linarith]

theorem tryCompute_x_nonneg {sw sh bw bh : ℕ} (hsw : 0 < sw) :
    0 ≤ (tryCompute sw sh bw bh).x := by
  have hw := tryCompute_w_le sh bw bh hsw
  apply jround_nonneg
  have : ((tryCompute sw sh bw bh).w : ℚ) ≤ (bw : ℚ) := by exact_mod_cast hw
  show (0:ℚ) ≤ ((bw : ℚ) - (jround (scaleQ sw sh bw bh * sw) : ℚ)) / 2
  have hww : ((jround (scaleQ sw sh bw bh * sw) : ℤ) : ℚ) ≤ (bw : ℚ) := this
  linarith

theorem tryCompute_x_add_w_le {sw sh bw bh : ℕ} (hsw : 0 < sw) :
    (tryCompute sw sh bw bh).x + (tryCompute sw sh bw bh).w ≤ (bw : ℤ) := by
  have hw : (tryCompute sw sh bw bh).w ≤ (bw : ℤ) := tryCompute_w_le sh bw bh hsw
  have hx := jround_le (((bw : ℚ) - (jround (scaleQ sw sh bw bh * sw) : ℚ)) / 2)
  have hxq : ((tryCompute sw sh bw bh).x : ℚ) ≤
      ((bw : ℚ) - ((tryCompute sw sh bw bh).w : ℚ)) / 2 + 1/2 := hx
  have h2 : 2 * (tryCompute sw sh bw bh).x ≤
      (bw : ℤ) - (tryCompute sw sh bw bh).w + 1 := by
    have : (2 * (tryCompute sw sh bw bh).x : ℚ) ≤
        (bw : ℚ) - ((tryCompute sw sh bw bh).w : ℚ) + 1 := by linarith
    exact_mod_cast this
  omega

/-- Claim C1 (amended): for positive natural sizes, the Placement Resolver
returns `scale = min(1, bw/sw, bh/sh)`, `w = round(scale*sw)`,
`h = round(scale*sh)`, `x = round((bw-w)/2)`, `y = bh - h`, and the placement
satisfies `0 ≤ x`, `x + w ≤ bw`, `y + h = bh`, and `w` and `h` equal
`scale*sw` and `scale*sh` within rounding (distance at most `1/2`) — the
exact ratio equality `w/sw = h/sh = scale` claimed for `scale < 1` does not
survive rounding. -/
theorem placement_resolver_spec (sw sh bw bh : ℕ) (hsw : 0 < sw) (_hsh : 0 < sh)
    (_hbw : 0 < bw) (_hbh : 0 < bh) :
    (tryCompute sw sh bw bh).w = jround (scaleQ sw sh bw bh * sw) ∧
    (tryCompute sw sh bw bh).h = jround (scaleQ sw sh bw bh * sh) ∧
    (tryCompute sw sh bw bh).x =
      jround (((bw : ℚ) - ((tryCompute sw sh bw bh).w : ℚ)) / 2) ∧
    (tryCompute sw sh bw bh).y = (bh : ℤ) - (tryCompute sw sh bw bh).h ∧
    0 ≤ (tryCompute sw sh bw bh).x ∧
    (tryCompute sw sh bw bh).x + (tryCompute sw sh bw bh).w ≤ (bw : ℤ) ∧
    (tryCompute sw sh bw bh).y + (tryCompute sw sh bw bh).h = (bh : ℤ) ∧
    |((tryCompute sw sh bw bh).w : ℚ) - scaleQ sw sh bw bh * sw| ≤ 1/2 ∧
    |((tryCompute sw sh bw bh).h : ℚ) - scaleQ sw sh bw bh * sh| ≤ 1/2 := by
  refine ⟨rfl, rfl, rfl, tryCompute_y_eq sw sh bw bh, tryCompute_x_nonneg hsw,
    tryCompute_x_add_w_le hsw, ?_, jround_abs_le _, jround_abs_le _⟩
  rw [tryCompute_y_eq sw sh bw bh]
  ring

/-- Claim C1, counterexample to the claim as stated: with subject 3×2 and
background 100×1 the scale is 1/2 < 1, but `w = round(3/2) = 2` gives
`w/sw = 2/3 ≠ 1/2 = scale`. -/
theorem placement_ratio_not_exact :
    0 < 3 ∧ 0 < 2 ∧ 0 < 100 ∧ 0 < 1 ∧ scaleQ 3 2 100 1 < 1 ∧
    ((tryCompute 3 2 100 1).w : ℚ) / 3 ≠ scaleQ 3 2 100 1 := by
  have hs : scaleQ 3 2 100 1 = 1/2 := by
    rw [scaleQ]
    rw [min_def, min_def]
    norm_num
  have hw : (tryCompute 3 2 100 1).w = 2 := by
    show jround (scaleQ 3 2 100 1 * 3) = 2
    rw [hs, jround]
    norm_num
  refine ⟨by norm_num, by norm_num, by norm_num, by norm_num, by rw [hs]; norm_num, ?_⟩
  rw [hs, hw]
  norm_num

/-- Claim C1, witness: the amended placement theorem applied to subject
100×100 over background 400×300 (scenario A of the specification). -/
theorem placement_resolver_spec_witness :
    0 < 100 ∧ 0 < 400 ∧ 0 < 300 ∧
    (tryCompute 100 100 400 300).x + (tryCompute 100 100 400 300).w ≤ (400 : ℤ) :=
  ⟨by decide, by decide, by decide,
    (placement_resolver_spec 100 100 400 300 (by decide) (by decide) (by decide)
      (by decide)).2.2.2.2.2.1⟩

/-- Claim C10, counterexample: all four natural dimensions are positive, yet
the rounded width is zero — subject 1×1000 against background 100×1 gives
`scale = 1/1000` and `w = round(1/1000) = 0`. -/
theorem placement_zero_width :
    0 < 1 ∧ 0 < 1000 ∧ 0 < 100 ∧ 0 < 1 ∧ (tryCompute 1 1000 100 1).w = 0 := by
  have hs : scaleQ 1 1000 100 1 = 1/1000 := by
    rw [scaleQ]
    rw [min_def, min_def]
    norm_num
  refine ⟨by norm_num, by norm_num, by norm_num, by norm_num, ?_⟩
  show jround (scaleQ 1 1000 100 1 * 1) = 0
  rw [hs, jround]
  norm_num

/-- Claim C10 (amended): the placement width and height are positive whenever
`scale*sw` and `scale*sh` are at least `1/2` (the rounding threshold); without
that condition rounding can produce a zero-sized rectangle. -/
theorem placement_pos_of_half_le (sw sh bw bh : ℕ)
    (hw : 1/2 ≤ scaleQ sw sh bw bh * sw) (hh : 1/2 ≤ scaleQ sw sh bw bh * sh) :
    0 < (tryCompute sw sh bw bh).w ∧ 0 < (tryCompute sw sh bw bh).h := by
  constructor
  · exact lt_of_lt_of_le Int.zero_lt_one (le_jround (by push_cast; linarith))
  · exact lt_of_lt_of_le Int.zero_lt_one (le_jround (by push_cast; linarith))

/-- Claim C10, witness: subject 100×100 against background 50×50 satisfies the
rounding-threshold hypotheses and yields a positive placement rectangle. -/
theorem scaleQ_100_100_50_50 : scaleQ 100 100 50 50 = 1/2 := by
  rw [scaleQ]
  rw [min_def, min_def]
  norm_num

theorem placement_pos_of_half_le_witness :
    (1/2 : ℚ) ≤ scaleQ 100 100 50 50 * 100 ∧
    0 < (tryCompute 100 100 50 50).w ∧ 0 < (tryCompute 100 100 50 50).h :=
  ⟨by rw [scaleQ_100_100_50_50]; norm_num,
    placement_pos_of_half_le 100 100 50 50
      (by rw [scaleQ_100_100_50_50]; norm_num)
      (by rw [scaleQ_100_100_50_50]; norm_num)⟩

/-! The Depth Sampler and the Mask Extractor work on RGBA pixel data
(`Uint8ClampedArray` entries, one byte per channel). -/

/-- One RGBA pixel of an `ImageData` buffer. -/
structure RGBA where
  r : ℕ
  g : ℕ
  b : ℕ
  a : ℕ
deriving DecidableEq, Repr

/-- The source helper `clamp01(x) = Math.max(0, Math.min(1, x))`. -/
def clamp01 (x : ℝ) : ℝ := max 0 (min 1 x)

theorem clamp01_nonneg (x : ℝ) : 0 ≤ clamp01 x := le_max_left _ _

theorem clamp01_le_one (x : ℝ) : clamp01 x ≤ 1 :=
  max_le zero_le_one (min_le_left _ _)

theorem clamp01_eq_self {x : ℝ} (h0 : 0 ≤ x) (h1 : x ≤ 1) : clamp01 x = x := by
  rw [clamp01, min_eq_right h1, max_eq_right h0]

/-- One iteration of the `buildDepth` pixel loop: grayscale
`z = (r+g+b)/(3*255)`, optional inversion `z := 1-z`, then gamma
`z := clamp01(z) ^ gamma` (`Math.pow` modelled as `Real.rpow`). -/
noncomputable def depthPixel (invert : Bool) (gamma : ℝ) (px : RGBA) : ℝ :=
  let z : ℝ := ((px.r : ℝ) + px.g + px.b) / (3 * 255)
  let z' := if invert then 1 - z else z
  clamp01 z' ^ gamma

/-- The `buildDepth` loop over a whole pixel buffer: the `Float32Array`
depth buffer, one value per pixel. -/
noncomputable def buildDepth (invert : Bool) (gamma : ℝ) (pixels : List RGBA) :
    List ℝ :=
  pixels.map (depthPixel invert gamma)

/-- Claim C2: every value stored in the DepthBuffer lies in `[0,1]`,
for every depth-source raster, every gamma in `[0.4, 2.5]`, and both values
of the invert flag. -/
theorem depth_buffer_in_unit_interval (invert : Bool) (gamma : ℝ)
    (pixels : List RGBA) (hg0 : 0.4 ≤ gamma) (_hg1 : gamma ≤ 2.5) :
    ∀ z ∈ buildDepth invert gamma pixels, 0 ≤ z ∧ z ≤ 1 := by
  intro z hz
  rw [buildDepth, List.mem_map] at hz
  obtain ⟨p, _, rfl⟩ := hz
  have hγ : (0 : ℝ) ≤ gamma := by norm_num at hg0 ⊢; linarith
  simp only [depthPixel]
  exact ⟨Real.rpow_nonneg (clamp01_nonneg _) _,
    Real.rpow_le_one (clamp01_nonneg _) (clamp01_le_one _) hγ⟩

/-- Claim C2, witness: a concrete pixel at gamma 1 without inversion. -/
theorem depth_buffer_in_unit_interval_witness :
    0 ≤ depthPixel false 1 ⟨10, 20, 30, 255⟩ ∧
    depthPixel false 1 ⟨10, 20, 30, 255⟩ ≤ 1 := by
  have h := depth_buffer_in_unit_interval false 1 [⟨10, 20, 30, 255⟩]
    (by norm_num) (by norm_num)
  exact h _ (by simp [buildDepth])

theorem depthPixel_invert_eq {p : RGBA} (hr : p.r ≤ 255) (hg : p.g ≤ 255)
    (hb : p.b ≤ 255) : depthPixel true 1 p = 1 - depthPixel false 1 p := by
  have h0 : (0 : ℝ) ≤ ((p.r : ℝ) + p.g + p.b) / (3 * 255) := by positivity
  have h1 : ((p.r : ℝ) + p.g + p.b) / (3 * 255) ≤ 1 := by
    rw [div_le_one (by norm_num)]
    have hr' : (p.r : ℝ) ≤ 255 := by exact_mod_cast hr
    have hg' : (p.g : ℝ) ≤ 255 := by exact_mod_cast hg
    have hb' : (p.b : ℝ) ≤ 255 := by exact_mod_cast hb
    linarith
  simp only [depthPixel, if_true, if_false, Bool.false_eq_true, ite_false, ite_true]
  rw [Real.rpow_one, Real.rpow_one,
    clamp01_eq_self (by linarith) (by linarith),
    clamp01_eq_self h0 h1]

/-- Claim C5: at gamma 1 on an otherwise-identical configuration, the
DepthBuffer built with `invert = true` is pointwise `1 -` the DepthBuffer
built with `invert = false`. -/
theorem depth_invert_complement (pixels : List RGBA)
    (hb : ∀ p ∈ pixels, p.r ≤ 255 ∧ p.g ≤ 255 ∧ p.b ≤ 255) :
    buildDepth true 1 pixels =
      (buildDepth false 1 pixels).map (fun z => 1 - z) := by
  rw [buildDepth, buildDepth, List.map_map]
  apply List.map_congr_left
  intro p hp
  obtain ⟨h1, h2, h3⟩ := hb p hp
  show depthPixel true 1 p = 1 - depthPixel false 1 p
  exact depthPixel_invert_eq h1 h2 h3

/-- Claim C5, witness: the complement identity on a concrete one-pixel
buffer. -/
theorem depth_invert_complement_witness :
    buildDepth true 1 [RGBA.mk 100 200 50 255] =
      (buildDepth false 1 [RGBA.mk 100 200 50 255]).map (fun z => 1 - z) :=
  depth_invert_complement _ (by decide)

/-- The mask-build pixel loop: copy the subject's resampled alpha into the
opacity channel and overwrite RGB with full brightness. -/
def buildMask (d : List RGBA) : List RGBA :=
  d.map (fun p => ⟨255, 255, 255, p.a⟩)

/-- Claim C4: the mask has exactly the size of its (Placement-sized) input,
every pixel's opacity equals the resampled subject's alpha there, RGB is
uniformly 255, and an all-opaque subject yields a fully-opaque uniform-white
mask. -/
theorem mask_extractor_spec (d : List RGBA) :
    (buildMask d).length = d.length ∧
    (∀ i : ℕ, (buildMask d)[i]? =
      (d[i]?).map (fun p => RGBA.mk 255 255 255 p.a)) ∧
    ((∀ p ∈ d, p.a = 255) →
      buildMask d = List.replicate d.length (RGBA.mk 255 255 255 255)) := by
  refine ⟨by simp [buildMask], fun i => by simp [buildMask], fun h => ?_⟩
  rw [buildMask, List.eq_replicate_iff]
  refine ⟨by simp, fun b hb => ?_⟩
  rw [List.mem_map] at hb
  obtain ⟨p, hp, rfl⟩ := hb
  rw [h p hp]

/-- Claim C4, witness: an all-opaque two-pixel subject yields the uniform
white opaque mask. -/
theorem mask_extractor_spec_witness :
    buildMask [RGBA.mk 1 2 3 255, RGBA.mk 7 8 9 255] =
      List.replicate 2 (RGBA.mk 255 255 255 255) :=
  (mask_extractor_spec [RGBA.mk 1 2 3 255, RGBA.mk 7 8 9 255]).2.2 (by decide)

/-! Shadow Renderer geometry, transcribed from the shadow-draw effect:
light direction, elevation clamp, cast-length scalar, shear/scale
transform coefficients of both the fallback and the depth-aware path. -/

/-- The elevation clamp `Math.max(1, Math.min(89, light.elev))`. -/
noncomputable def elevClamped (e : ℝ) : ℝ := max 1 (min 89 e)

/-- The clamped elevation in radians: `(elevClamped * Math.PI) / 180`. -/
noncomputable def elevRad (e : ℝ) : ℝ := elevClamped e * Real.pi / 180

/-- The cast-length scalar `kBase = 1 / Math.tan(elevRad)`. -/
noncomputable def kBase (e : ℝ) : ℝ := 1 / Real.tan (elevRad e)

/-- Shadow direction x-component: `dirX = -Math.cos(rad)`. -/
noncomputable def dirX (angle : ℝ) : ℝ := -Real.cos (angle * Real.pi / 180)

/-- Shadow direction y-component: `dirY = Math.sin(rad)`. -/
noncomputable def dirY (angle : ℝ) : ℝ := Real.sin (angle * Real.pi / 180)

/-- Perpendicular axis x-component: `perpX = -dirY`. -/
noncomputable def perpX (angle : ℝ) : ℝ := -dirY angle

/-- Perpendicular axis y-component: `perpY = dirX`. -/
noncomputable def perpY (angle : ℝ) : ℝ := dirX angle

/-- The constant flattening factor `squash = 0.7`. -/
noncomputable def squash : ℝ := 0.7

/-- Per-layer cast length `kLayer = kBase * (1 + depthStrength * z)`. -/
noncomputable def kLayerOf (k ds z : ℝ) : ℝ := k * (1 + ds * z)

/-- Fallback-path shear coefficient `c = -kBase * dirX + squash * perpX`. -/
noncomputable def cFallback (elev angle : ℝ) : ℝ :=
  -kBase elev * dirX angle + squash * perpX angle

/-- Fallback-path scale coefficient `d = -kBase * dirY + squash * perpY`. -/
noncomputable def dFallback (elev angle : ℝ) : ℝ :=
  -kBase elev * dirY angle + squash * perpY angle

/-- Depth-aware per-layer shear coefficient
`cL = -kLayer * dirX + squash * perpX` with `kLayer` built from the clamped
`zMid`. -/
noncomputable def cLayer (elev angle ds zMid : ℝ) : ℝ :=
  -kLayerOf (kBase elev) ds (clamp01 zMid) * dirX angle + squash * perpX angle

/-- Depth-aware per-layer scale coefficient
`dL = -kLayer * dirY + squash * perpY`. -/
noncomputable def dLayer (elev angle ds zMid : ℝ) : ℝ :=
  -kLayerOf (kBase elev) ds (clamp01 zMid) * dirY angle + squash * perpY angle

/-- Claim C9: whatever real number the elevation input is, the clamp keeps it
in `[1, 89]`, the tangent at the clamped angle is strictly positive (so the
`1/tan` division is never by zero), `kBase` is a positive real, and every
per-layer cast length at nonnegative depth strength stays positive. -/
theorem elevation_clamp_safe (e : ℝ) :
    1 ≤ elevClamped e ∧ elevClamped e ≤ 89 ∧
    0 < Real.tan (elevRad e) ∧ 0 < kBase e ∧
    ∀ ds z : ℝ, 0 ≤ ds → 0 ≤ z → 0 < kLayerOf (kBase e) ds z := by
  have h1 : 1 ≤ elevClamped e := le_max_left _ _
  have h2 : elevClamped e ≤ 89 := max_le (by norm_num) (min_le_left _ _)
  have hpi := Real.pi_pos
  have hlo : 0 < elevRad e := by
    rw [elevRad]
    have : (0 : ℝ) < elevClamped e := lt_of_lt_of_le one_pos h1
    positivity
  have hhi : elevRad e < Real.pi / 2 := by
    rw [elevRad]
    have hm : elevClamped e * Real.pi ≤ 89 * Real.pi :=
      mul_le_mul_of_nonneg_right h2 (le_of_lt hpi)
    linarith
  have htan : 0 < Real.tan (elevRad e) :=
    Real.tan_pos_of_pos_of_lt_pi_div_two hlo hhi
  have hk : 0 < kBase e := by
    rw [kBase]
    exact one_div_pos.mpr htan
  refine ⟨h1, h2, htan, hk, fun ds z hds hz => ?_⟩
  rw [kLayerOf]
  have : (0 : ℝ) ≤ ds * z := mul_nonneg hds hz
  nlinarith

/-- Claim C9, witness: the renderer geometry stays positive at elevation 55
with depth strength 0.8 and a mid depth 0.5. -/
theorem elevation_clamp_safe_witness :
    0 < kBase 55 ∧ 0 < kLayerOf (kBase 55) 0.8 0.5 :=
  ⟨(elevation_clamp_safe 55).2.2.2.1,
    (elevation_clamp_safe 55).2.2.2.2 0.8 0.5 (by norm_num) (by norm_num)⟩

/-- Claim C6, counterexample to the claim as stated: 1/2 and 3/4 are both in
`(0, 90)` and 1/2 < 3/4, yet both clamp to 1, so the two `kBase` values are
equal and the strict decrease fails. -/
theorem kBase_not_strict_on_open_interval :
    (0 : ℝ) < 1/2 ∧ (1/2 : ℝ) < 90 ∧ (0 : ℝ) < 3/4 ∧ (3/4 : ℝ) < 90 ∧
    (1/2 : ℝ) < 3/4 ∧ ¬ kBase (3/4) < kBase (1/2) := by
  have hc : elevClamped (1/2 : ℝ) = elevClamped (3/4 : ℝ) := by
    rw [elevClamped, elevClamped,
      min_eq_right (by norm_num : (1/2 : ℝ) ≤ 89),
      min_eq_right (by norm_num : (3/4 : ℝ) ≤ 89),
      max_eq_left (by norm_num : (1/2 : ℝ) ≤ 1),
      max_eq_left (by norm_num : (3/4 : ℝ) ≤ 1)]
  have heq : kBase (3/4 : ℝ) = kBase (1/2 : ℝ) := by
    rw [kBase, kBase, elevRad, elevRad, hc]
  refine ⟨by norm_num, by norm_num, by norm_num, by norm_num, by norm_num, ?_⟩
  rw [heq]
  exact lt_irrefl _

/-- Claim C6 (amended): on the clamp range `[1, 89]` the cast-length scalar is
strictly decreasing in elevation: `e1 < e2` implies `kBase e2 < kBase e1`.
Outside that range the clamp makes `kBase` constant, so strictness on all of
`(0, 90)` fails. -/
theorem kBase_strict_anti (e1 e2 : ℝ) (h1 : 1 ≤ e1) (h12 : e1 < e2)
    (h2 : e2 ≤ 89) : kBase e2 < kBase e1 := by
  have hpi := Real.pi_pos
  have hc1 : elevClamped e1 = e1 := by
    rw [elevClamped, min_eq_right (by linarith), max_eq_right h1]
  have hc2 : elevClamped e2 = e2 := by
    rw [elevClamped, min_eq_right h2, max_eq_right (by linarith)]
  have hx1pos : 0 < e1 * Real.pi / 180 := by
    have : (0 : ℝ) < e1 := by linarith
    positivity
  have hx2hi : e2 * Real.pi / 180 < Real.pi / 2 := by
    have hm : e2 * Real.pi ≤ 89 * Real.pi :=
      mul_le_mul_of_nonneg_right h2 (le_of_lt hpi)
    linarith
  have hxlt : e1 * Real.pi / 180 < e2 * Real.pi / 180 := by
    have := mul_lt_mul_of_pos_right h12 hpi
    linarith
  have ht1 : 0 < Real.tan (e1 * Real.pi / 180) :=
    Real.tan_pos_of_pos_of_lt_pi_div_two hx1pos (lt_trans hxlt hx2hi)
  have ht : Real.tan (e1 * Real.pi / 180) < Real.tan (e2 * Real.pi / 180) :=
    Real.tan_lt_tan_of_nonneg_of_lt_pi_div_two (le_of_lt hx1pos) hx2hi hxlt
  rw [kBase, kBase, elevRad, elevRad, hc1, hc2]
  exact one_div_lt_one_div_of_lt ht1 ht

/-- Claim C6, witness: the amended monotonicity applied at elevations 30
and 60. -/
theorem kBase_strict_anti_witness : kBase 60 < kBase 30 :=
  kBase_strict_anti 30 60 (by norm_num) (by norm_num) (by norm_num)

/-- Claim C8: at `depthStrength = 0` the per-layer cast length equals `kBase`
for every layer, and the depth-aware shear/scale coefficients `(cL, dL)`
coincide with the fallback coefficients `(c, d)` built from the same light
parameters. -/
theorem depth_strength_zero_coincides (elev angle zMid : ℝ) :
    kLayerOf (kBase elev) 0 (clamp01 zMid) = kBase elev ∧
    cLayer elev angle 0 zMid = cFallback elev angle ∧
    dLayer elev angle 0 zMid = dFallback elev angle := by
  have h : kLayerOf (kBase elev) 0 (clamp01 zMid) = kBase elev := by
    rw [kLayerOf]
    ring
  exact ⟨h, by rw [cLayer, h, cFallback], by rw [dLayer, h, dFallback]⟩

/-! Depth Layer Slicer: band boundaries and the membership test of the
slicing loop. -/

/-- Lower band boundary `z0 = li / layerCountLocal`. -/
noncomputable def zLo (N li : ℕ) : ℝ := (li : ℝ) / N

/-- Upper band boundary `z1 = (li + 1) / layerCountLocal`. -/
noncomputable def zHi (N li : ℕ) : ℝ := ((li : ℝ) + 1) / N

/-- The `inRange` test of the slicing loop: the last band is closed at 1,
every other band is half-open. -/
def inBand (N li : ℕ) (z : ℝ) : Prop :=
  if li = N - 1 then zLo N li ≤ z ∧ z ≤ 1 else zLo N li ≤ z ∧ z < zHi N li

/-- A pixel is stored in band `li` iff its mask alpha is nonzero and its
depth passes the band's `inRange` test. -/
def coveredBy (N li : ℕ) (a : ℕ) (z : ℝ) : Prop := a ≠ 0 ∧ inBand N li z

theorem inBand_lower {N li : ℕ} {z : ℝ} (h : inBand N li z) : zLo N li ≤ z := by
  rw [inBand] at h
  split_ifs at h <;> exact h.1

theorem inBand_disjoint_aux {N li lj : ℕ} {z : ℝ} (hj : lj < N) (hij : li < lj)
    (h1 : inBand N li z) (h2 : inBand N lj z) : False := by
  have hNpos : (0 : ℝ) < N := by
    have : 0 < N := lt_of_le_of_lt (Nat.zero_le _) hj
    exact_mod_cast this
  have hli : ¬ li = N - 1 := by omega
  rw [inBand, if_neg hli] at h1
  have h2lo : zLo N lj ≤ z := inBand_lower h2
  have hle : zHi N li ≤ zLo N lj := by
    rw [zHi, zLo]
    rw [div_le_div_iff_of_pos_right hNpos]
    have : (li : ℝ) + 1 ≤ lj := by exact_mod_cast hij
    linarith
  linarith [h1.2]

theorem inBand_unique {N li lj : ℕ} {z : ℝ} (hi : li < N) (hj : lj < N)
    (h1 : inBand N li z) (h2 : inBand N lj z) : li = lj := by
  rcases lt_trichotomy li lj with h | h | h
  · exact absurd (inBand_disjoint_aux hj h h1 h2) not_false
  · exact h
  · exact absurd (inBand_disjoint_aux hi h h2 h1) not_false

theorem inBand_exists {N : ℕ} (z : ℝ) (hN : 1 ≤ N) (h0 : 0 ≤ z) (h1 : z ≤ 1) :
    ∃ li, li < N ∧ inBand N li z := by
  have hNpos : (0 : ℝ) < N := by exact_mod_cast hN
  by_cases hz : z < 1
  · have hm0 : (0 : ℤ) ≤ ⌊z * N⌋ :=
      Int.floor_nonneg.mpr (mul_nonneg h0 (le_of_lt hNpos))
    refine ⟨(⌊z * N⌋).toNat, ?_, ?_⟩
    · rw [Int.toNat_lt hm0]
      apply Int.floor_lt.mpr
      push_cast
      nlinarith
    · have hcast : (((⌊z * N⌋).toNat : ℕ) : ℝ) = ((⌊z * N⌋ : ℤ) : ℝ) := by
        exact_mod_cast Int.toNat_of_nonneg hm0
      have hfl : (((⌊z * N⌋).toNat : ℕ) : ℝ) ≤ z * N := by
        rw [hcast]
        exact Int.floor_le _
      have hfu : z * N < (((⌊z * N⌋).toNat : ℕ) : ℝ) + 1 := by
        rw [hcast]
        exact Int.lt_floor_add_one _
      rw [inBand]
      split_ifs with hlast
      · exact ⟨by rw [zLo, div_le_iff₀ hNpos]; exact hfl, le_of_lt hz⟩
      · exact ⟨by rw [zLo, div_le_iff₀ hNpos]; exact hfl,
          by rw [zHi, lt_div_iff₀ hNpos]; exact hfu⟩
  · have hz1 : z = 1 := le_antisymm h1 (not_lt.mp hz)
    refine ⟨N - 1, by omega, ?_⟩
    rw [inBand, if_pos rfl]
    have hsub : ((N - 1 : ℕ) : ℝ) = (N : ℝ) - 1 := by
      have := Nat.cast_sub hN (R := ℝ)
      simpa using this
    constructor
    · rw [zLo, hz1, div_le_one hNpos, hsub]
      linarith
    · rw [hz1]

/-- Claim C3: for every layer count `N ≥ 1`, every subject pixel (mask alpha
nonzero) whose depth lies in `[0, 1]` is stored in exactly one depth band:
the bands are pairwise disjoint and together they cover the full subject
silhouette. -/
theorem depth_layer_partition (N a : ℕ) (z : ℝ) (hN : 1 ≤ N) (ha : a ≠ 0)
    (h0 : 0 ≤ z) (h1 : z ≤ 1) : ∃! li : ℕ, li < N ∧ coveredBy N li a z := by
  obtain ⟨li, hliN, hband⟩ := inBand_exists z hN h0 h1
  refine ⟨li, ⟨hliN, ha, hband⟩, ?_⟩
  rintro lj ⟨hljN, -, hbandj⟩
  exact inBand_unique hljN hliN hbandj hband

/-- Claim C3, witness: with 4 bands, alpha 1 and depth 1/2 there is exactly
one band containing the pixel. -/
theorem depth_layer_partition_witness :
    ∃! li : ℕ, li < 4 ∧ coveredBy 4 li 1 (1/2 : ℝ) :=
  depth_layer_partition 4 1 (1/2) (by norm_num) (by norm_num) (by norm_num)
    (by norm_num)

/-! Depth-aware drawing pass as a trace of canvas operations. Each layer
contributes a blurred and a sharp `drawImage` in `source-over` mode; after
all layers one full-canvas gradient fill in `destination-in` mode fades the
accumulated shadow along the cast direction in screen space. -/

/-- Canvas composite modes used by the shadow-draw pass. -/
inductive CompositeMode
  | sourceOver
  | destinationIn
deriving DecidableEq, Repr

/-- One linear-gradient color stop (offset along the gradient, alpha). -/
structure GradStop where
  offset : ℝ
  alpha : ℝ

/-- One drawing operation of the shadow-draw pass. -/
inductive DrawOp
  | layerImage (cL dL : ℝ) (blurPx : ℤ) (alpha : ℝ) (mode : CompositeMode)
  | gradientFill (x0 y0 x1 y1 : ℝ) (stops : List GradStop) (mode : CompositeMode)

/-- JavaScript `Math.round` on a real argument. -/
noncomputable def jroundR (x : ℝ) : ℤ := ⌊x + 1/2⌋

/-- The source helper `lerp(a, b, t) = a + (b - a) * t`. -/
noncomputable def lerp (a b t : ℝ) : ℝ := a + (b - a) * t

/-- The base blur radius `Math.round(6 * Math.max(0.7, Math.min(2.0, invTan)))` where
`invTan = 1 / Math.tan(elevRad)`. -/
noncomputable def baseBlur (elev : ℝ) : ℤ :=
  jroundR (6 * max 0.7 (min 2.0 (kBase elev)))

/-- The two `drawImage` calls of one iteration of the per-layer loop:
blurred (depth-dependent blur and alpha), then sharp. -/
noncomputable def layerOps (elev angle ds zMid : ℝ) : List DrawOp :=
  [DrawOp.layerImage (cLayer elev angle ds zMid) (dLayer elev angle ds zMid)
      (jroundR ((baseBlur elev : ℝ) * lerp 0.7 1.8 (clamp01 zMid)))
      (lerp 0.06 0.2 (clamp01 zMid)) CompositeMode.sourceOver,
   DrawOp.layerImage (cLayer elev angle ds zMid) (dLayer elev angle ds zMid)
      0 (lerp 0.85 0.25 (clamp01 zMid)) CompositeMode.sourceOver]

/-- The fade length `Math.max(10, h * kBase * (1 + Math.max(0, depthStrength)) * 0.9)`. -/
noncomputable def maxLen (h elev ds : ℝ) : ℝ :=
  max 10 (h * kBase elev * (1 + max 0 ds) * 0.9)

/-- The screen-space directional fade: a full-canvas `destination-in`
gradient fill from the anchor `(ax, ay)` along `dir`, stops alpha 1.0 at the
anchor, 0.55 at 75% of `maxLen`, 0.0 at `maxLen`. -/
noncomputable def screenFade (ax ay h elev angle ds : ℝ) : DrawOp :=
  DrawOp.gradientFill ax ay (ax + dirX angle * maxLen h elev ds)
    (ay + dirY angle * maxLen h elev ds)
    [⟨0, 1⟩, ⟨0.75, 0.55⟩, ⟨1, 0⟩] CompositeMode.destinationIn

/-- The trace of the whole depth-aware draw: per-layer operations in layer
order, then the single screen-space fade. -/
noncomputable def depthAwareOps (ax ay h elev angle ds : ℝ) (zMids : List ℝ) :
    List DrawOp :=
  (zMids.map (layerOps elev angle ds)).flatten ++ [screenFade ax ay h elev angle ds]

/-- Recognizer for gradient-fill (fade) operations. -/
def isFade : DrawOp → Bool
  | DrawOp.gradientFill _ _ _ _ _ _ => true
  | _ => false

/-- Alpha semantics of a composite mode on one pixel: `source-over` overlays,
`destination-in` multiplies (intersects) the existing alpha with the source
alpha. -/
noncomputable def modeAlpha : CompositeMode → ℝ → ℝ → ℝ
  | CompositeMode.sourceOver, src, dst => src + dst * (1 - src)
  | CompositeMode.destinationIn, src, dst => dst * src

/-- Claim C7: in the depth-aware path the trace contains exactly one fade
operation; it comes after all layer draws; it is the screen-space gradient
from the anchor along `dir` with stops alpha 1.0 at offset 0, 0.55 at 0.75,
0.0 at 1, over length `maxLen = max(10, h * kBase * (1 + max(0,
depthStrength)) * 0.9)`; and its `destination-in` mode multiplies the
existing alpha rather than overlaying it. -/
theorem screen_fade_spec (ax ay h elev angle ds : ℝ) (zMids : List ℝ) :
    (depthAwareOps ax ay h elev angle ds zMids).filter isFade =
      [screenFade ax ay h elev angle ds] ∧
    (depthAwareOps ax ay h elev angle ds zMids).getLast? =
      some (screenFade ax ay h elev angle ds) ∧
    screenFade ax ay h elev angle ds =
      DrawOp.gradientFill ax ay
        (ax + dirX angle * max 10 (h * kBase elev * (1 + max 0 ds) * 0.9))
        (ay + dirY angle * max 10 (h * kBase elev * (1 + max 0 ds) * 0.9))
        [⟨0, 1⟩, ⟨0.75, 0.55⟩, ⟨1, 0⟩] CompositeMode.destinationIn ∧
    (∀ src dst : ℝ, modeAlpha CompositeMode.destinationIn src dst = dst * src) := by
  refine ⟨?_, ?_, rfl, fun _ _ => rfl⟩
  · rw [depthAwareOps, List.filter_append]
    have hfl : ((zMids.map (layerOps elev angle ds)).flatten).filter isFade = [] := by
      induction zMids with
      | nil => rfl
      | cons m ms ih =>
        rw [List.map_cons, List.flatten_cons, List.filter_append, ih]
        rfl
    rw [hfl]
    rfl
  · rw [depthAwareOps]
    exact List.getLast?_concat _

end ShadowGen
